import Mathlib

/-!
Verification of the liquid-rust core against its specification.

The Rust sources are shallowly embedded: `Vec` becomes `List`, the
insertion-ordered `Object` map becomes an association list, machine
integers become `Int` with explicit wrap-around where a cast matters,
panics become `Option`/`Except` failure values.
-/

namespace Liquid

/-! ### Association-list operations

Modelled from the spec: `Object` is a "mapping from short-string keys to
Value, preserving insertion order" (spec section 3); the concrete map type is
not under src/.  An insert of an existing key replaces the value in place and
returns the old value; a new key is appended at the end.
-/

def assocGet (o : List (String × α)) (k : String) : Option α :=
  match o with
  | [] => none
  | (k', v) :: rest => if k' = k then some v else assocGet rest k

def assocContains (o : List (String × α)) (k : String) : Bool :=
  (assocGet o k).isSome

def assocInsert (o : List (String × α)) (k : String) (v : α) :
    List (String × α) × Option α :=
  match o with
  | [] => ([(k, v)], none)
  | (k', v') :: rest =>
    if k' = k then ((k, v) :: rest, some v')
    else
      let r := assocInsert rest k v
      ((k', v') :: r.1, r.2)

def assocKeys (o : List (String × α)) : List String := o.map Prod.fst

/-! ### Scalars and values

Modelled from the spec: `Value` "is a tagged sum with variants `Nil`,
`Scalar`, `Array(sequence of Value)`, `Object(mapping from short-string keys
to Value, preserving insertion order)`" (spec section 3); the file
`values/value.rs` is not under src/.  The `Float`, `Date` and `State`
variants are omitted: no claim under verification mentions them.
-/

inductive Scalar where
  | int (n : Int)
  | bool (b : Bool)
  | str (s : String)
deriving Repr, DecidableEq

/-- Modelled from the spec: the short-string form of a scalar used as a path
segment, "to_kstr() : identical to render().to_string()" (spec section 4.1);
`scalar/mod.rs` is not under src/. -/
def Scalar.toKstr : Scalar → String
  | .int n => toString n
  | .bool b => toString b
  | .str s => s

inductive Value where
  | nil
  | scalar (s : Scalar)
  | array (items : List Value)
  | object (fields : List (String × Value))

abbrev Object := List (String × Value)

/-! ### The array view (src/crates/value/src/array.rs)

`impl ArrayView for Vec<T>`: `size` is `self.len() as i32`, `get` converts
the signed index and reads with the non-panicking `slice::get`, and
`contains_key` compares the converted index against `size`.  The Rust
`index as usize` cast on a negative `i32` wraps modulo 2^64.
-/

def convert_index (index max_size : Int) : Int :=
  if 0 ≤ index then index else max_size + index

/-- The Rust cast `i as usize` for an `i32` value `i`: wrap modulo 2^64. -/
def usizeOfInt (i : Int) : Nat := (i % (2 : Int) ^ 64).toNat

/-- `ArrayView::size for Vec<T>`: `self.len() as i32`.  Exact on lists whose
length is below 2^31 (the theorems carry that bound). -/
def vecSize (l : List α) : Int := (l.length : Int)

/-- `ArrayView::get for Vec<T>`. -/
def vecGet (l : List α) (index : Int) : Option α :=
  l.get? (usizeOfInt (convert_index index (vecSize l)))

/-- `ArrayView::contains_key for Vec<T>`. -/
def vecContainsKey (l : List α) (index : Int) : Bool :=
  decide (convert_index index (vecSize l) < vecSize l)

theorem get?_isSome_of_lt {l : List α} {n : Nat} (h : n < l.length) :
    (l.get? n).isSome = true := by
  cases hg : l.get? n with
  | none => exact absurd (List.get?_eq_none.mp hg) (by omega)
  | some a => rfl

theorem emod_of_neg_in_range {i n : Int} (h0 : -n ≤ i) (h1 : i < 0) :
    i % n = n + i := by
  have hadd := Int.add_mul_emod_self_left i n 1
  rw [mul_one] at hadd
  rw [← hadd, Int.emod_eq_of_lt (by omega) (by omega)]
  omega

theorem vecGet_in_range (A : List α) (i : Int)
    (hlen : (A.length : Int) < 2 ^ 31)
    (h1 : -(A.length : Int) ≤ i) (h2 : i < (A.length : Int)) :
    vecGet A i = A.get? ((i % (A.length : Int)).toNat) ∧
    (vecGet A i).isSome = true := by
  by_cases hi : 0 ≤ i
  · have hc : convert_index i (vecSize A) = i := if_pos hi
    have hmod64 : i % (2 : Int) ^ 64 = i := Int.emod_eq_of_lt hi (by omega)
    have hemod : i % (A.length : Int) = i := Int.emod_eq_of_lt hi h2
    have hres : vecGet A i = A.get? (i.toNat) := by
      unfold vecGet usizeOfInt
      rw [hc, hmod64]
    refine ⟨?_, ?_⟩
    · rw [hres, hemod]
    · rw [hres]; exact get?_isSome_of_lt (by omega)
  · push_neg at hi
    have hc : convert_index i (vecSize A) = (A.length : Int) + i := if_neg (by omega)
    have h0 : 0 ≤ (A.length : Int) + i := by omega
    have hmod64 : ((A.length : Int) + i) % (2 : Int) ^ 64 = (A.length : Int) + i :=
      Int.emod_eq_of_lt h0 (by omega)
    have hemod : i % (A.length : Int) = (A.length : Int) + i :=
      emod_of_neg_in_range h1 hi
    have hres : vecGet A i = A.get? (((A.length : Int) + i).toNat) := by
      unfold vecGet usizeOfInt
      rw [hc, hmod64]
    refine ⟨?_, ?_⟩
    · rw [hres, hemod]
    · rw [hres]; exact get?_isSome_of_lt (by omega)

theorem vecGet_out_lo (A : List α) (i : Int)
    (hlen : (A.length : Int) < 2 ^ 31) (hlo : -(2 ^ 31) ≤ i)
    (h : i < -(A.length : Int)) : vecGet A i = none := by
  have hc : convert_index i (vecSize A) = (A.length : Int) + i := by
    have : ¬ (0 ≤ i) := by omega
    exact if_neg this
  have hadd := Int.add_mul_emod_self_left ((A.length : Int) + i) ((2 : Int) ^ 64) 1
  rw [mul_one] at hadd
  have hmod : ((A.length : Int) + i) % (2 : Int) ^ 64 =
      (A.length : Int) + i + 2 ^ 64 := by
    rw [← hadd]
    exact Int.emod_eq_of_lt (by omega) (by omega)
  unfold vecGet usizeOfInt
  rw [hc, hmod]
  exact List.get?_eq_none.mpr (by omega)

theorem vecGet_out_hi (A : List α) (i : Int)
    (hhi : i < 2 ^ 31) (h : (A.length : Int) ≤ i) : vecGet A i = none := by
  have h0 : 0 ≤ i := le_trans (Int.ofNat_nonneg _) h
  have hc : convert_index i (vecSize A) = i := if_pos h0
  have hmod64 : i % (2 : Int) ^ 64 = i := Int.emod_eq_of_lt h0 (by omega)
  unfold vecGet usizeOfInt
  rw [hc, hmod64]
  exact List.get?_eq_none.mpr (by omega)

/-- Claim C3: for every array A and signed index i with -|A| <= i < |A|,
ArrayView::get returns the element at position i mod |A| (|A|+i for negative
i, i otherwise); for every i outside that range it returns None, and reading
never panics (the model reads through the non-panicking slice::get).  Lengths
and indexes are bounded by the i32 range of the source. -/
theorem C3_array_get_spec (α : Type) (A : List α) (i : Int)
    (hlen : (A.length : Int) < 2 ^ 31) (hlo : -(2 ^ 31) ≤ i) (hhi : i < 2 ^ 31) :
    ((-(A.length : Int) ≤ i ∧ i < (A.length : Int)) →
      vecGet A i = A.get? ((i % (A.length : Int)).toNat) ∧
      (vecGet A i).isSome = true) ∧
    ((i < -(A.length : Int) ∨ (A.length : Int) ≤ i) → vecGet A i = none) := by
  refine ⟨fun h => vecGet_in_range A i hlen h.1 h.2, fun h => ?_⟩
  rcases h with h | h
  · exact vecGet_out_lo A i hlen hlo h
  · exact vecGet_out_hi A i hhi h

/-- Witness for C3 at A = [10, 20, 30], i = -1: the hypotheses hold and get
returns the last element. -/
theorem C3_array_get_spec_witness :
    vecGet [10, 20, 30] (-1 : Int) = some 30 := by
  have h := (C3_array_get_spec Nat [10, 20, 30] (-1)
      (by norm_num) (by norm_num) (by norm_num)).1 ⟨by norm_num, by norm_num⟩
  rw [h.1]
  decide

/-- Claim C10 fails as stated: on the empty array, contains_key(-1) is true
(convert_index gives -1 < 0 = size, there is no lower-bound check) while
get(-1) is None. -/
theorem C10_counterexample :
    vecContainsKey ([] : List Value) (-1) = true ∧
    vecGet ([] : List Value) (-1) = none := by
  exact ⟨rfl, rfl⟩

/-- Claim C10, amended: membership and access agree exactly for indexes
i >= -|A|; for i < -|A| contains_key wrongly answers true while get returns
None (bounds as in the i32 source). -/
theorem C10_contains_key_get_amended (α : Type) (A : List α) (i : Int)
    (hlen : (A.length : Int) < 2 ^ 31) (hlo : -(2 ^ 31) ≤ i) (hhi : i < 2 ^ 31) :
    (-(A.length : Int) ≤ i →
      (vecContainsKey A i = true ↔ (vecGet A i).isSome = true)) ∧
    (i < -(A.length : Int) →
      vecContainsKey A i = true ∧ vecGet A i = none) := by
  constructor
  · intro hge
    by_cases hin : i < (A.length : Int)
    · have h := vecGet_in_range A i hlen hge hin
      have hck : vecContainsKey A i = true := by
        unfold vecContainsKey convert_index vecSize
        by_cases h0 : 0 ≤ i
        · rw [if_pos h0]; exact decide_eq_true hin
        · rw [if_neg h0]; exact decide_eq_true (by omega)
      rw [hck, h.2]
    · push_neg at hin
      have hg := vecGet_out_hi A i hhi hin
      have hck : vecContainsKey A i = false := by
        unfold vecContainsKey convert_index vecSize
        have h0 : 0 ≤ i := le_trans (Int.ofNat_nonneg _) hin
        rw [if_pos h0]
        exact decide_eq_false (by omega)
      rw [hck, hg]
      simp
  · intro hlt
    refine ⟨?_, vecGet_out_lo A i hlen hlo hlt⟩
    unfold vecContainsKey convert_index vecSize
    have h0 : ¬ (0 ≤ i) := by omega
    rw [if_neg h0]
    exact decide_eq_true (by omega)

/-- Witness for the amended C10 at A = [7], i = -1 (agreement: both sides
present) and, through the same instantiation, i = -2 handled by the
counterexample theorem. -/
theorem C10_contains_key_get_amended_witness :
    vecContainsKey [7] (-1 : Int) = true ∧ (vecGet [7] (-1 : Int)).isSome = true := by
  have h := (C10_contains_key_get_amended Nat [7] (-1)
      (by norm_num) (by norm_num) (by norm_num)).1 (by norm_num)
  have hget : (vecGet [7] (-1 : Int)).isSome = true := by decide
  exact ⟨h.mpr hget, hget⟩

/-! ### Frames and the variable stack (src/crates/interpreter/src/stack.rs)

The frame vector is kept in Vec order: index 0 is the bottom ("mutable
globals") frame, the last element is the topmost frame.
-/

structure Frame where
  name : Option String
  data : Object

def Frame.new : Frame := { name := none, data := [] }

def Frame.withName (n : String) : Frame := { name := some n, data := [] }

structure Stack where
  globals : Option Object
  stack : List Frame
  indexes : Object

def Stack.empty : Stack := { globals := none, indexes := [], stack := [Frame.new] }

def Stack.withGlobals (g : Object) : Stack := { Stack.empty with globals := some g }

def Stack.pushFrame (s : Stack) : Stack :=
  { s with stack := s.stack ++ [Frame.new] }

def Stack.pushNamedFrame (s : Stack) (n : String) : Stack :=
  { s with stack := s.stack ++ [Frame.withName n] }

/-- Stack::pop_frame.  Vec::pop removes and returns the last frame; the
panic (modelled as none) fires only when Vec::pop returns None, i.e. when
the stack was already empty before the call. -/
def Stack.popFrame (s : Stack) : Option Stack :=
  match s.stack with
  | [] => none
  | _ :: _ => some { s with stack := s.stack.dropLast }

def Stack.frameName (s : Stack) : Option String :=
  s.stack.reverse.findSome? (fun f => f.name)

/-- Stack::find_frame: walk the frames topmost first, then the globals view,
then the indexes map, answering the first container that holds the name. -/
def Stack.findFrame (s : Stack) (name : String) : Option Object :=
  match s.stack.reverse.find? (fun f => assocContains f.data name) with
  | some f => some f.data
  | none =>
    if (s.globals.map (fun g => assocContains g name)).getD false then s.globals
    else if assocContains s.indexes name then some s.indexes
    else none

/-- Stack::set_index: insert into the indexes map, returning the old value. -/
def Stack.setIndex (s : Stack) (name : String) (val : Value) : Stack × Option Value :=
  let r := assocInsert s.indexes name val
  ({ s with indexes := r.1 }, r.2)

/-- Stack::get_index. -/
def Stack.getIndex (s : Stack) (name : String) : Option Value :=
  assocGet s.indexes name

/-- Stack::set_global: insert into the bottom frame; panics (none) when the
frame vector is empty. -/
def Stack.setGlobal (s : Stack) (name : String) (val : Value) :
    Option (Stack × Option Value) :=
  match s.stack with
  | [] => none
  | bot :: rest =>
    let r := assocInsert bot.data name val
    some ({ s with stack := { bot with data := r.1 } :: rest }, r.2)

/-- Stack::set: insert into the topmost frame; panics (none) when the frame
vector is empty. -/
def Stack.set (s : Stack) (name : String) (val : Value) :
    Option (Stack × Option Value) :=
  match s.stack.getLast? with
  | none => none
  | some top =>
    let r := assocInsert top.data name val
    some ({ s with stack := s.stack.dropLast ++ [{ top with data := r.1 }] }, r.2)

/-! ### Interrupt state (src/crates/interpreter/src/runtime.rs) -/

inductive Interrupt where
  | Continue
  | Break
deriving Repr, DecidableEq

structure InterruptState where
  interrupt : Option Interrupt
deriving Repr, DecidableEq

def InterruptState.default : InterruptState := { interrupt := none }

def InterruptState.interrupted (st : InterruptState) : Bool :=
  st.interrupt.isSome

/-- InterruptState::set_interrupt: any previous state is obliterated. -/
def InterruptState.setInterrupt (st : InterruptState) (i : Interrupt) : InterruptState :=
  { st with interrupt := some i }

/-- InterruptState::pop_interrupt: fetches and clears the interrupt state. -/
def InterruptState.popInterrupt (st : InterruptState) : Option Interrupt × InterruptState :=
  (st.interrupt, { st with interrupt := none })

/-- Claim C8: the interrupt state holds at most one interrupt; set makes
interrupted() true and replaces any previous interrupt; pop returns the held
interrupt (None when none) and clears the state, so interrupted() is false
right after any pop and a second consecutive pop returns None. -/
theorem C8_interrupt_state (st : InterruptState) (i j : Interrupt) :
    (st.setInterrupt i).interrupted = true ∧
    ((st.setInterrupt j).setInterrupt i).interrupt = some i ∧
    st.popInterrupt = (st.interrupt, { interrupt := none }) ∧
    (st.popInterrupt.2).interrupted = false ∧
    ((st.popInterrupt.2).popInterrupt).1 = none := by
  exact ⟨rfl, rfl, rfl, rfl, rfl⟩

/-- Claim C2 fails on the code: pop_frame on the one-frame stack built by
Stack::empty() does not panic; Vec::pop succeeds and the stack is left
empty, although pop_frame's own doc comment promises a panic whenever the
pop leaves the stack empty. -/
theorem C2_pop_frame_singleton_no_panic :
    Stack.popFrame Stack.empty = some { globals := none, stack := [], indexes := [] } := rfl

/-! ### Scope helpers (src/crates/interpreter/src/runtime.rs)

Runtime::run_in_scope / run_in_named_scope: push a frame, run the supplied
function, pop the frame, hand the function's result back.  The part of the
runtime these helpers touch is the Stack, so the function is modelled as a
state transformer on Stack returning an arbitrary result value (a success or
an error value alike).
-/

def runInScope (f : Stack → α × Stack) (s : Stack) : Option (α × Stack) :=
  ((f s.pushFrame).2.popFrame).map (fun s3 => ((f s.pushFrame).1, s3))

def runInNamedScope (name : String) (f : Stack → α × Stack) (s : Stack) :
    Option (α × Stack) :=
  ((f (s.pushNamedFrame name)).2.popFrame).map
    (fun s3 => ((f (s.pushNamedFrame name)).1, s3))

theorem popFrame_of_length_pos (s : Stack) (h : 0 < s.stack.length) :
    s.popFrame = some { s with stack := s.stack.dropLast } := by
  cases hs : s.stack with
  | nil => rw [hs] at h; exact absurd h (by simp)
  | cons a l => unfold Stack.popFrame; rw [hs]

/-- Claim C6: run_in_scope (and run_in_named_scope) pushes exactly one
frame, invokes f, pops it again and returns f's result unchanged, for any
result value (success or error); whenever f leaves the frame count as it
found it, the call does not panic and the stack depth after the call equals
the depth before it. -/
theorem C6_run_in_scope_balance (α : Type) (f g : Stack → α × Stack)
    (s : Stack) (name : String)
    (hf : (f s.pushFrame).2.stack.length = s.pushFrame.stack.length)
    (hg : (g (s.pushNamedFrame name)).2.stack.length =
      (s.pushNamedFrame name).stack.length) :
    (∃ s3 : Stack, runInScope f s = some ((f s.pushFrame).1, s3) ∧
      s3.stack.length = s.stack.length) ∧
    (∃ s3 : Stack, runInNamedScope name g s = some ((g (s.pushNamedFrame name)).1, s3) ∧
      s3.stack.length = s.stack.length) := by
  have hfl : s.pushFrame.stack.length = s.stack.length + 1 := by
    unfold Stack.pushFrame; simp
  have hgl : (s.pushNamedFrame name).stack.length = s.stack.length + 1 := by
    unfold Stack.pushNamedFrame; simp
  constructor
  · refine ⟨{ (f s.pushFrame).2 with stack := (f s.pushFrame).2.stack.dropLast }, ?_, ?_⟩
    · unfold runInScope
      rw [popFrame_of_length_pos _ (by omega)]
      rfl
    · simp [List.length_dropLast]
      omega
  · refine ⟨{ (g (s.pushNamedFrame name)).2 with
      stack := (g (s.pushNamedFrame name)).2.stack.dropLast }, ?_, ?_⟩
    · unfold runInNamedScope
      rw [popFrame_of_length_pos _ (by omega)]
      rfl
    · simp [List.length_dropLast]
      omega

/-- Witness for C6 with the identity body on the empty stack: the body
returns an error value (modelling a failed render) and the depth is
restored. -/
theorem C6_run_in_scope_balance_witness :
    ∃ s3 : Stack, runInScope (fun st => ((Except.error ("boom") : Except String Unit), st))
      Stack.empty = some (Except.error ("boom"), s3) ∧
      s3.stack.length = Stack.empty.stack.length := by
  have h := (C6_run_in_scope_balance (Except String Unit)
      (fun st => (Except.error ("boom"), st)) (fun st => (Except.error ("boom"), st))
      Stack.empty ("n") rfl rfl).1
  exact h

/-! ### Root names (Stack::roots) and path lookup

Stack::roots collects the keys of the globals view, then of every frame from
the bottom up, sorts them and removes the (now consecutive) duplicates.  The
Rust Vec::sort is modelled by a stable insertion sort, Vec::dedup by a
consecutive-duplicate filter.
-/

def insertSorted (x : String) : List String → List String
  | [] => [x]
  | y :: ys => if x ≤ y then x :: y :: ys else y :: insertSorted x ys

def sortStrings : List String → List String
  | [] => []
  | x :: xs => insertSorted x (sortStrings xs)

def dedupConsec : List String → List String
  | [] => []
  | [x] => [x]
  | x :: y :: rest =>
    if x = y then dedupConsec (y :: rest) else x :: dedupConsec (y :: rest)

def Stack.roots (s : Stack) : List String :=
  dedupConsec (sortStrings
    ((match s.globals with | some g => assocKeys g | none => []) ++
      (s.stack.map (fun fr => assocKeys fr.data)).flatten))

/-- Stack::find_path_frame: look at the first path segment, render it to its
short-string form, and search the containers for it. -/
def Stack.findPathFrame (s : Stack) (path : List Scalar) : Option Object :=
  match path.head? with
  | none => none
  | some k => s.findFrame k.toKstr

/-! ### Errors and path resolution inside a root -/

/-- Modelled from the spec: "a structured error value with a primary message
plus an ordered list of (key, displayable) context entries" (spec section
6); the liquid-error crate is not under src/. -/
structure LError where
  msg : String
  context : List (String × String)
deriving Repr, DecidableEq

def LError.withMsg (m : String) : LError := { msg := m, context := [] }

def LError.addContext (e : LError) (k v : String) : LError :=
  { e with context := e.context ++ [(k, v)] }

/-- Modelled from the spec: the integer coercion of a path key, "coerce the
key to an integer (numeric scalar or numeric string)" (spec section 4.2). -/
def Scalar.keyToInt : Scalar → Option Int
  | .int n => some n
  | .str s => s.toInt?
  | .bool _ => none

/-- Modelled from the spec: one step of path resolution (spec section 4.2):
objects look up the key's string form; arrays coerce the key to an integer
and use the signed-index rules of ArrayView::get, with size, first and last
as computed pseudo-properties on arrays (and size on strings);
liquid_value::find is not under src/. -/
def Value.indexKey : Value → Scalar → Option Value
  | .object o, k => assocGet o k.toKstr
  | .array xs, k =>
    if k.toKstr = "size" then some (.scalar (.int (xs.length : Int)))
    else if k.toKstr = "first" then xs.head?
    else if k.toKstr = "last" then xs.getLast?
    else
      match k.keyToInt with
      | some i => vecGet xs i
      | none => none
  | .scalar (.str st), k =>
    if k.toKstr = "size" then some (.scalar (.int (st.length : Int))) else none
  | _, _ => none

/-- Modelled from the spec: liquid_value::find::try_find (not under src/):
"A missing intermediate segment yields Nil; continuing indexes into Nil
yields Nil; this must not panic or error" (spec section 4.2). -/
def tryFind (v : Value) (path : List Scalar) : Option Value :=
  match path with
  | [] => some v
  | k :: rest =>
    match v.indexKey k with
    | some child => tryFind child rest
    | none => tryFind Value.nil rest

/-- Modelled from the spec: liquid_value::find::find (not under src/):
"unknown variable (only for first-segment misses; later misses yield Nil)"
(spec section 7) — once a root container has been found the result is a
plain value, with Nil for misses. -/
def liqFind (v : Value) (path : List Scalar) : Except LError Value :=
  .ok ((tryFind v path).getD .nil)

/-- Stack::try_get: find the container of the first segment (absent root
gives None), then resolve the whole path inside it. -/
def Stack.tryGet (s : Stack) (path : List Scalar) : Option Value :=
  match s.findPathFrame path with
  | some frame => tryFind (.object frame) path
  | none => none

/-- Stack::get: like try_get, but an undefined first segment produces the
"Unknown variable" error carrying the requested name and the available
roots. -/
def Stack.get (s : Stack) (path : List Scalar) : Except LError Value :=
  match s.findPathFrame path with
  | some frame => liqFind (.object frame) path
  | none =>
    .error (((LError.withMsg ("Unknown variable")).addContext
        ("requested variable") ((path.head?).getD (Scalar.str ("nil"))).toKstr).addContext
      ("available variables") (String.intercalate (", ") s.roots))

/-! ### Helper lemmas about the list operations above -/

theorem mem_insertSorted {x a : String} {l : List String} :
    x ∈ insertSorted a l ↔ x = a ∨ x ∈ l := by
  induction l with
  | nil => simp [insertSorted]
  | cons y ys ih =>
    unfold insertSorted
    by_cases h : a ≤ y
    · rw [if_pos h]; simp
    · rw [if_neg h]; simp [ih]; tauto

theorem mem_sortStrings {x : String} {l : List String} :
    x ∈ sortStrings l ↔ x ∈ l := by
  induction l with
  | nil => simp [sortStrings]
  | cons y ys ih => unfold sortStrings; rw [mem_insertSorted]; simp [ih]

theorem mem_dedupConsec : ∀ (l : List String) (x : String),
    x ∈ dedupConsec l ↔ x ∈ l
  | [], x => by simp [dedupConsec]
  | [a], x => by simp [dedupConsec]
  | a :: b :: rest, x => by
    unfold dedupConsec
    by_cases hab : a = b
    · rw [if_pos hab, mem_dedupConsec (b :: rest) x]
      subst hab; simp
    · rw [if_neg hab]
      simp [mem_dedupConsec (b :: rest) x]

theorem assocGet_isSome_iff (o : List (String × α)) (k : String) :
    (assocGet o k).isSome = true ↔ k ∈ assocKeys o := by
  induction o with
  | nil => simp [assocGet, assocKeys]
  | cons p rest ih =>
    obtain ⟨k', v⟩ := p
    by_cases h : k' = k
    · simp [assocGet, assocKeys, h]
    · simp [assocGet, assocKeys, h, ih, Ne.symm h]

theorem assocContains_iff_mem (o : List (String × α)) (k : String) :
    assocContains o k = true ↔ k ∈ assocKeys o := by
  unfold assocContains; exact assocGet_isSome_iff o k

theorem find?_append_none {p : α → Bool} {l1 l2 : List α}
    (h : ∀ x ∈ l1, p x = false) : List.find? p (l1 ++ l2) = List.find? p l2 := by
  induction l1 with
  | nil => rfl
  | cons a l ih =>
    rw [List.cons_append, List.find?_cons_of_neg _ (by simp [h a (by simp)])]
    exact ih (fun x hx => h x (by simp [hx]))

theorem mem_roots_iff (s : Stack) (n : String) :
    n ∈ s.roots ↔
      ((∃ g, s.globals = some g ∧ assocContains g n = true) ∨
        (∃ f ∈ s.stack, assocContains f.data n = true)) := by
  unfold Stack.roots
  rw [mem_dedupConsec, mem_sortStrings, List.mem_append]
  constructor
  · rintro (hg | hf)
    · left
      cases hgl : s.globals with
      | none => rw [hgl] at hg; simp at hg
      | some g =>
        rw [hgl] at hg
        exact ⟨g, rfl, (assocContains_iff_mem g n).mpr hg⟩
    · right
      rw [List.mem_flatten] at hf
      obtain ⟨l, hl, hn⟩ := hf
      rw [List.mem_map] at hl
      obtain ⟨fr, hfr, rfl⟩ := hl
      exact ⟨fr, hfr, (assocContains_iff_mem _ n).mpr hn⟩
  · rintro (⟨g, hgl, hg⟩ | ⟨f, hf, hc⟩)
    · left; rw [hgl]
      exact (assocContains_iff_mem g n).mp hg
    · right
      rw [List.mem_flatten]
      exact ⟨assocKeys f.data, List.mem_map.mpr ⟨f, hf, rfl⟩,
        (assocContains_iff_mem _ n).mp hc⟩

theorem findFrame_eq_none (s : Stack) (n : String)
    (hfr : ∀ f ∈ s.stack, assocContains f.data n = false)
    (hg : (s.globals.map (fun g => assocContains g n)).getD false = false)
    (hix : assocContains s.indexes n = false) :
    s.findFrame n = none := by
  unfold Stack.findFrame
  rw [List.find?_eq_none.mpr
    (fun f hf => by simp [hfr f (List.mem_reverse.mp hf)])]
  rw [hg, hix]
  simp

/-- Claim C4: first-segment lookup searches the frames from topmost
downward, then the globals view, then the indexes map, answering the first
container holding the name; set writes the topmost frame, set_global the
bottom frame, set_index the indexes map, each leaving every other container
unchanged.  (Frames are listed bottom first, so "topmost" is the last frame
whose successors all lack the name.) -/
theorem C4_lookup_order_and_set_targets (s : Stack) (n : String) (v : Value) :
    (∀ pre f post, s.stack = pre ++ f :: post →
      assocContains f.data n = true →
      (∀ g ∈ post, assocContains g.data n = false) →
      s.findFrame n = some f.data) ∧
    ((∀ f ∈ s.stack, assocContains f.data n = false) →
      ∀ g, s.globals = some g → assocContains g n = true →
      s.findFrame n = some g) ∧
    ((∀ f ∈ s.stack, assocContains f.data n = false) →
      (s.globals.map (fun g => assocContains g n)).getD false = false →
      assocContains s.indexes n = true →
      s.findFrame n = some s.indexes) ∧
    ((∀ f ∈ s.stack, assocContains f.data n = false) →
      (s.globals.map (fun g => assocContains g n)).getD false = false →
      assocContains s.indexes n = false →
      s.findFrame n = none) ∧
    (∀ pre top, s.stack = pre ++ [top] →
      s.set n v = some
        ({ globals := s.globals,
           stack := pre ++ [{ top with data := (assocInsert top.data n v).1 }],
           indexes := s.indexes }, (assocInsert top.data n v).2)) ∧
    (∀ bot rest, s.stack = bot :: rest →
      s.setGlobal n v = some
        ({ globals := s.globals,
           stack := { bot with data := (assocInsert bot.data n v).1 } :: rest,
           indexes := s.indexes }, (assocInsert bot.data n v).2)) ∧
    s.setIndex n v =
      ({ globals := s.globals, stack := s.stack,
         indexes := (assocInsert s.indexes n v).1 }, (assocInsert s.indexes n v).2) := by
  refine ⟨?_, ?_, ?_, ?_, ?_, ?_, ?_⟩
  · intro pre f post hdec hf hpost
    have hrev : s.stack.reverse = post.reverse ++ f :: pre.reverse := by
      rw [hdec]; simp
    unfold Stack.findFrame
    rw [hrev, find?_append_none (fun x hx => hpost x (List.mem_reverse.mp hx)),
      @List.find?_cons_of_pos Frame (fun x => assocContains x.data n) f pre.reverse hf]
  · intro hfr g hgl hgc
    unfold Stack.findFrame
    rw [List.find?_eq_none.mpr
      (fun f hf => by simp [hfr f (List.mem_reverse.mp hf)])]
    rw [hgl]
    simp [hgc]
  · intro hfr hg hix
    unfold Stack.findFrame
    rw [List.find?_eq_none.mpr
      (fun f hf => by simp [hfr f (List.mem_reverse.mp hf)])]
    rw [hg, hix]
    simp
  · exact findFrame_eq_none s n
  · intro pre top hdec
    unfold Stack.set
    rw [hdec]
    simp only [List.getLast?_concat]
    rw [show (pre ++ [top]).dropLast = pre by simp]
  · intro bot rest hdec
    unfold Stack.setGlobal
    rw [hdec]
  · rfl

/-- Witness for C4 on a two-frame stack where both frames hold the name:
lookup answers the topmost frame's container. -/
theorem C4_lookup_order_and_set_targets_witness :
    Stack.findFrame
      { globals := none,
        stack := [{ name := none, data := [("x", Value.nil)] },
                  { name := none, data := [("x", Value.scalar (Scalar.int 1))] }],
        indexes := [] } "x" = some [("x", Value.scalar (Scalar.int 1))] := by
  have h := (C4_lookup_order_and_set_targets
      { globals := none,
        stack := [{ name := none, data := [("x", Value.nil)] },
                  { name := none, data := [("x", Value.scalar (Scalar.int 1))] }],
        indexes := [] } "x" Value.nil).1
  exact h [{ name := none, data := [("x", Value.nil)] }]
    { name := none, data := [("x", Value.scalar (Scalar.int 1))] } [] rfl rfl
    (fun g hg => by simp at hg)

/-- Claim C1: when the first segment of a path is a key of no stack frame,
not of the globals view and not of the indexes map, Stack::get returns (not
panics) an error whose message is "Unknown variable", whose context carries
"requested variable" = the first segment's string form and "available
variables" = the root names available in globals and all frames (the
roots list draws from exactly those two sources). -/
theorem C1_unknown_variable_error (s : Stack) (k : Scalar) (rest : List Scalar)
    (hfr : ∀ f ∈ s.stack, assocContains f.data k.toKstr = false)
    (hg : (s.globals.map (fun g => assocContains g k.toKstr)).getD false = false)
    (hix : assocContains s.indexes k.toKstr = false) :
    s.get (k :: rest) = .error
      { msg := "Unknown variable",
        context := [("requested variable", k.toKstr),
                    ("available variables", String.intercalate (", ") s.roots)] } ∧
    (∀ n, n ∈ s.roots ↔
      ((∃ g, s.globals = some g ∧ assocContains g n = true) ∨
        (∃ f ∈ s.stack, assocContains f.data n = true))) := by
  constructor
  · have hff : s.findPathFrame (k :: rest) = none := by
      unfold Stack.findPathFrame
      simp only [List.head?_cons]
      exact findFrame_eq_none s k.toKstr hfr hg hix
    unfold Stack.get
    rw [hff]
    rfl
  · exact mem_roots_iff s

/-- Witness for C1: a stack whose globals define only "a"; requesting
"nosuchroot" yields the Unknown variable error listing "a". -/
theorem C1_unknown_variable_error_witness :
    Stack.get { globals := some [("a", Value.nil)], stack := [Frame.new], indexes := [] }
      [Scalar.str ("nosuchroot")] = .error
      { msg := "Unknown variable",
        context := [("requested variable", "nosuchroot"),
                    ("available variables", "a")] } := by
  have h := (C1_unknown_variable_error
      { globals := some [("a", Value.nil)], stack := [Frame.new], indexes := [] }
      (Scalar.str ("nosuchroot")) []
      (fun f hf => by
        simp at hf
        rw [hf]
        rfl)
      rfl rfl).1
  rw [h]
  rfl

theorem tryFind_isSome (path : List Scalar) : ∀ v : Value, ∃ r, tryFind v path = some r := by
  induction path with
  | nil => exact fun v => ⟨v, rfl⟩
  | cons k rest ih =>
    intro v
    unfold tryFind
    cases h : v.indexKey k with
    | some c => exact ih c
    | none => exact ih Value.nil

theorem tryFind_nil_propagates (p : List Scalar) :
    tryFind Value.nil p = some Value.nil := by
  induction p with
  | nil => rfl
  | cons k rest ih =>
    unfold tryFind
    rw [show Value.nil.indexKey k = none from rfl]
    exact ih

/-- Claim C7: for every path whose first segment is a key of some frame, of
the globals view or of the indexes map, Stack::try_get resolves without
error or panic: the outcome is always a value (possibly Nil); and missing
later segments propagate as Nil — indexing into Nil yields Nil. -/
theorem C7_try_get_never_errors (s : Stack) (k : Scalar) (rest : List Scalar)
    (hdef : (s.findFrame k.toKstr).isSome = true) :
    (∃ v, s.tryGet (k :: rest) = some v) ∧
    (∀ p, tryFind Value.nil p = some Value.nil) := by
  constructor
  · obtain ⟨o, ho⟩ := Option.isSome_iff_exists.mp hdef
    have hpf : s.findPathFrame (k :: rest) = some o := by
      unfold Stack.findPathFrame
      simp only [List.head?_cons]
      exact ho
    obtain ⟨r, hr⟩ := tryFind_isSome (k :: rest) (Value.object o)
    refine ⟨r, ?_⟩
    unfold Stack.tryGet
    rw [hpf]
    exact hr
  · exact tryFind_nil_propagates

/-- Witness for C7: root "c" is defined (in the indexes map); resolving
the path c.missing yields a value without error. -/
theorem C7_try_get_never_errors_witness :
    ∃ v, Stack.tryGet
      { globals := none, stack := [Frame.new],
        indexes := [("c", Value.scalar (Scalar.int 1))] }
      [Scalar.str ("c"), Scalar.str ("missing")] = some v := by
  exact (C7_try_get_never_errors
    { globals := none, stack := [Frame.new],
      indexes := [("c", Value.scalar (Scalar.int 1))] }
    (Scalar.str ("c")) [Scalar.str ("missing")] rfl).1

/-! ### Increment and decrement tags
(src/crates/lib/src/stdlib/tags/increment_tags.rs) -/

/-- Modelled from the spec: Scalar::to_integer on the values these tags
store, which are integer scalars; the scalar module is not under src/. -/
def Scalar.toInteger : Scalar → Option Int
  | .int n => some n
  | _ => none

def Value.asScalar : Value → Option Scalar
  | .scalar s => some s
  | _ => none

/-- The counter value the two tags read: the indexes-map entry as an
integer, 0 when unset. -/
def counterValue (id : String) (s : Stack) : Int :=
  (((s.getIndex id).bind Value.asScalar).bind Scalar.toInteger).getD 0

/-- Increment::render_to: write the current counter value to the output,
then store value+1 in the indexes map. -/
def incrementRenderTo (id : String) (s : Stack) : String × Stack :=
  (toString (counterValue id s),
   (s.setIndex id (Value.scalar (Scalar.int (counterValue id s + 1)))).1)

/-- Decrement::render_to: decrement first, then write and store the new
value. -/
def decrementRenderTo (id : String) (s : Stack) : String × Stack :=
  (toString (counterValue id s - 1),
   (s.setIndex id (Value.scalar (Scalar.int (counterValue id s - 1)))).1)

theorem assocGet_insert (o : List (String × α)) (k : String) (v : α) :
    assocGet (assocInsert o k v).1 k = some v := by
  induction o with
  | nil => simp [assocInsert, assocGet]
  | cons p rest ih =>
    obtain ⟨k', v'⟩ := p
    by_cases h : k' = k
    · simp [assocInsert, assocGet, h]
    · simp [assocInsert, assocGet, h, ih]

theorem counterValue_after_set (id : String) (s : Stack) (m : Int) :
    counterValue id ((s.setIndex id (Value.scalar (Scalar.int m))).1) = m := by
  unfold counterValue Stack.getIndex Stack.setIndex
  rw [assocGet_insert]
  rfl

/-- Claim C5: increment renders the counter (0 when unset) then stores
value+1; decrement stores and renders value-1; both read and write only the
indexes map, never the frames, so from an empty runtime the sequence
increment v, increment v, decrement v, decrement v outputs "0110", and two
increments of x output "01" whenever x has no counter entry — and an assign
(Stack::set) never changes the indexes map. -/
theorem C5_increment_decrement_tags (id x n : String) (s : Stack) (v : Value)
    (hx : s.getIndex x = none) :
    ((incrementRenderTo id s).2.stack = s.stack ∧
     (incrementRenderTo id s).2.globals = s.globals ∧
     (decrementRenderTo id s).2.stack = s.stack ∧
     (decrementRenderTo id s).2.globals = s.globals) ∧
    (∀ t : Stack, t.indexes = s.indexes →
      (incrementRenderTo id t).1 = (incrementRenderTo id s).1 ∧
      (incrementRenderTo id t).2.indexes = (incrementRenderTo id s).2.indexes ∧
      (decrementRenderTo id t).1 = (decrementRenderTo id s).1 ∧
      (decrementRenderTo id t).2.indexes = (decrementRenderTo id s).2.indexes) ∧
    ((incrementRenderTo ("v") Stack.empty).1 ++
      (incrementRenderTo ("v") (incrementRenderTo ("v") Stack.empty).2).1 ++
      (decrementRenderTo ("v")
        (incrementRenderTo ("v") (incrementRenderTo ("v") Stack.empty).2).2).1 ++
      (decrementRenderTo ("v")
        (decrementRenderTo ("v")
          (incrementRenderTo ("v") (incrementRenderTo ("v") Stack.empty).2).2).2).1
      = "0110") ∧
    ((incrementRenderTo x s).1 ++ (incrementRenderTo x (incrementRenderTo x s).2).1
      = "01") ∧
    (∀ res, s.set n v = some res → res.1.indexes = s.indexes) := by
  refine ⟨⟨rfl, rfl, rfl, rfl⟩, ?_, ?_, ?_, ?_⟩
  · intro t ht
    have hcv : counterValue id t = counterValue id s := by
      unfold counterValue Stack.getIndex
      rw [ht]
    refine ⟨?_, ?_, ?_, ?_⟩ <;>
      simp only [incrementRenderTo, decrementRenderTo, Stack.setIndex, hcv, ht]
  · rfl
  · have hv0 : counterValue x s = 0 := by
      unfold counterValue
      rw [hx]
      rfl
    have h1 : (incrementRenderTo x s).1 = "0" := by
      unfold incrementRenderTo
      rw [hv0]
      rfl
    have h2a : counterValue x (incrementRenderTo x s).2 = counterValue x s + 1 := by
      show counterValue x
        ((s.setIndex x (Value.scalar (Scalar.int (counterValue x s + 1)))).1) =
        counterValue x s + 1
      exact counterValue_after_set x s (counterValue x s + 1)
    have h2 : (incrementRenderTo x (incrementRenderTo x s).2).1 = "1" := by
      show toString (counterValue x (incrementRenderTo x s).2) = "1"
      rw [h2a, hv0]
      rfl
    rw [h1, h2]
    rfl
  · intro res hres
    unfold Stack.set at hres
    cases hl : s.stack.getLast? with
    | none => rw [hl] at hres; exact absurd hres (by simp)
    | some top =>
      rw [hl] at hres
      cases hres
      rfl

/-- Witness for C5 at the empty runtime: the four-tag sequence renders
"0110". -/
theorem C5_increment_decrement_tags_witness :
    (incrementRenderTo ("v") Stack.empty).1 ++
      (incrementRenderTo ("v") (incrementRenderTo ("v") Stack.empty).2).1 ++
      (decrementRenderTo ("v")
        (incrementRenderTo ("v") (incrementRenderTo ("v") Stack.empty).2).2).1 ++
      (decrementRenderTo ("v")
        (decrementRenderTo ("v")
          (incrementRenderTo ("v") (incrementRenderTo ("v") Stack.empty).2).2).2).1
      = "0110" := by
  exact (C5_increment_decrement_tags ("v") ("x") ("n") Stack.empty Value.nil rfl).2.2.1

/-! ### Float literal tokenizer (src/crates/parser/src/literal.rs)

The nom combinators are modelled directly over character lists: a
recognizer returns the consumed characters and the remaining input, and alt
backtracks to its next branch on failure.  The f64 produced by
map_res(parse_float, parse) is abstracted to the recognized token: Rust's
f64 from_str accepts every string the recognizer admits, so map_res
succeeds exactly when parse_float does.  The special values stay symbolic
(the floating-point payload itself is not modelled, only acceptance).
-/

inductive FloatTok where
  | dec (digits : List Char)
  | inf
  | neginf
  | nan
  | negnan
deriving Repr, DecidableEq

/-- The unsigned part of dec_int: a lone 0, or a digit 1-9 followed by any
decimal digits. -/
def decIntBody (input : List Char) : Option (List Char × List Char) :=
  match input with
  | '0' :: rest => some (['0'], rest)
  | c :: rest =>
    if '1' ≤ c ∧ c ≤ '9' then
      some (c :: rest.takeWhile Char.isDigit, rest.dropWhile Char.isDigit)
    else none
  | [] => none

/-- dec_int: recognize(opt(minus sign), then the body). -/
def decInt (input : List Char) : Option (List Char × List Char) :=
  match input with
  | '-' :: rest => (decIntBody rest).map (fun r => ('-' :: r.1, r.2))
  | _ => decIntBody input

/-- frac: a dot followed by at least one digit. -/
def fracP (input : List Char) : Option (List Char × List Char) :=
  match input with
  | '.' :: rest =>
    match rest.takeWhile Char.isDigit with
    | [] => none
    | ds => some ('.' :: ds, rest.dropWhile Char.isDigit)
  | _ => none

/-- The part of exp after the e/E: an optional sign, then at least one
digit. -/
def expTail (c : Char) (rest : List Char) : Option (List Char × List Char) :=
  match rest with
  | s :: rest2 =>
    if s = '+' ∨ s = '-' then
      match rest2.takeWhile Char.isDigit with
      | [] => none
      | ds => some (c :: s :: ds, rest2.dropWhile Char.isDigit)
    else
      match rest.takeWhile Char.isDigit with
      | [] => none
      | ds => some (c :: ds, rest.dropWhile Char.isDigit)
  | [] => none

/-- exp: one of e/E, an optional sign, then at least one digit. -/
def expP (input : List Char) : Option (List Char × List Char) :=
  match input with
  | c :: rest => if c = 'e' ∨ c = 'E' then expTail c rest else none
  | [] => none

/-- parse_float: recognize(tuple((dec_int, opt(frac), exp))).  The exponent
part is NOT optional in the source. -/
def parseFloat (input : List Char) : Option (List Char × List Char) :=
  match decInt input with
  | none => none
  | some (a, r1) =>
    match fracP r1 with
    | some (b, r2) =>
      match expP r2 with
      | some (c, r3) => some (a ++ b ++ c, r3)
      | none => none
    | none =>
      match expP r1 with
      | some (c, r3) => some (a ++ c, r3)
      | none => none

/-- nom's tag combinator: match a literal character sequence. -/
def parseTag (t : List Char) (input : List Char) : Option (List Char) :=
  if t.isPrefixOf input then some (input.drop t.length) else none

/-- alt((nan, inf)) with the already-consumed sign applied. -/
def specialBody (neg : Bool) (input : List Char) : Option (FloatTok × List Char) :=
  match parseTag ['n', 'a', 'n'] input with
  | some rest => some ((if neg then .negnan else .nan), rest)
  | none =>
    match parseTag ['i', 'n', 'f'] input with
    | some rest => some ((if neg then .neginf else .inf), rest)
    | none => none

/-- special_float: tuple((opt(one_of(plus minus)), alt((nan, inf)))), the
minus sign negating the value. -/
def specialFloat (input : List Char) : Option (FloatTok × List Char) :=
  match input with
  | c :: rest =>
    if c = '+' ∨ c = '-' then specialBody (c = '-') rest
    else specialBody false input
  | [] => specialBody false input

/-- float_literal: alt((map_res(parse_float, from_str), special_float)). -/
def floatLiteral (input : List Char) : Option (FloatTok × List Char) :=
  match parseFloat input with
  | some r => some (.dec r.1, r.2)
  | none => specialFloat input

/-- Claim C9 fails on the code: parse_float requires the exponent — the
tuple is (dec_int, opt(frac), exp) with exp mandatory — so the plain
decimal literal 1.5 is rejected, while the exponent forms and the signed
inf/nan specials are accepted. -/
theorem C9_float_literal_requires_exponent :
    floatLiteral ("1.5".toList) = none ∧
    floatLiteral ("1.5e3".toList) = some (.dec ("1.5e3".toList), []) ∧
    floatLiteral ("15e3".toList) = some (.dec ("15e3".toList), []) ∧
    floatLiteral ("inf".toList) = some (.inf, []) ∧
    floatLiteral ("-inf".toList) = some (.neginf, []) ∧
    floatLiteral ("nan".toList) = some (.nan, []) ∧
    floatLiteral ("+nan".toList) = some (.nan, []) := by
  refine ⟨?_, ?_, ?_, ?_, ?_, ?_, ?_⟩ <;> decide

end Liquid
